import Mathlib

/-!
Verification development for `train_encoder.py`: a distributed contrastive
training loop for a CT-scan vision encoder.  The Python source is embedded
shallowly: parameter dictionaries become association lists over `ℚ`-valued
tensors, the per-batch body of the training loop becomes a pure step function
returning the successor state together with the list of observable effects,
and the real-valued loss engine is embedded over `ℝ`.
-/

set_option maxHeartbeats 1000000

/-- Element values of a parameter tensor (floating point modelled as `ℚ`). -/
abbrev Tensor := List ℚ

/-- An ordered mapping from parameter names to tensors: the `OrderedDict` built
from `named_parameters()` in `update_ema` (src lines 43-44). -/
abbrev ParamSet := List (String × Tensor)

/-- The list of parameter names of a mapping. -/
def ParamSet.keys (ps : ParamSet) : List String := ps.map Prod.fst

/-- Dictionary lookup `ps[n]`; `none` models a Python `KeyError`. -/
def ParamSet.get : ParamSet → String → Option Tensor
  | [], _ => none
  | (k, v) :: rest, n => if k = n then some v else ParamSet.get rest n

/-- In-place overwrite of the tensor stored under an existing name. -/
def ParamSet.set : ParamSet → String → Tensor → ParamSet
  | [], _, _ => []
  | (k, v) :: rest, n, t =>
    if k = n then (k, t) :: ParamSet.set rest n t else (k, v) :: ParamSet.set rest n t

/-- `ema_params[name].mul_(decay).add_(param.data, alpha=1-decay)` (src line 48):
the element-wise blend `s * decay + l * (1 - decay)` of shadow tensor `s` with
live tensor `l`. -/
def emaBlend (decay : ℚ) (s l : Tensor) : Tensor :=
  List.zipWith (fun a b => a * decay + b * (1 - decay)) s l

/-- `update_ema(ema_model, model, decay)` (src lines 38-48): iterate over the
live model's named parameters in order and blend each one into the shadow
copy.  A live parameter name missing from the shadow raises `KeyError`,
modelled by `none`; names present only in the shadow are never visited.  The
decorator `@torch.no_grad()` has no counterpart here because the embedding is
pure. -/
def update_ema : ParamSet → ParamSet → ℚ → Option ParamSet
  | ema, [], _ => some ema
  | ema, (n, p) :: rest, decay =>
    match ParamSet.get ema n with
    | none => none
    | some s => update_ema (ParamSet.set ema n (emaBlend decay s p)) rest decay

/-- Shadow parameter set for the C2 witness. -/
def emaW : ParamSet := [("w", [0])]

/-- Live parameter set for the C2 witness. -/
def liveW : ParamSet := [("w", [1])]

/-- Shadow parameter set with an extra key, for the C8 counterexample. -/
def emaMismatch : ParamSet := [("a", [0]), ("b", [0])]

/-- Live parameter set missing the shadow's extra key, for the C8 counterexample. -/
def liveMismatch : ParamSet := [("a", [1])]

/-- Row-major flattening `input_tensor.reshape(batch_size, seq_len*feat_dim)`
(src line 31), restricted to one sample row. -/
def flattenRow (b s f : ℕ) (t : Fin b → Fin s → Fin f → ℝ) (i : Fin b) :
    Fin (s * f) → ℝ :=
  fun k => t i (finProdFinEquiv.symm k).1 (finProdFinEquiv.symm k).2

/-- `F.normalize(x, p=2, dim=1)` (src line 32) on one row: divide by the
Euclidean norm (a zero row stays zero, matching torch's clamped denominator). -/
noncomputable def l2normalize (n : ℕ) (v : Fin n → ℝ) : Fin n → ℝ :=
  fun k => v k / Real.sqrt (∑ j, v j ^ 2)

/-- `F.cross_entropy(logits, target)` with the default mean reduction
(src line 35): the mean over rows of minus the log of the softmax probability
of the target class. -/
noncomputable def cross_entropy (b : ℕ) (logits : Fin b → Fin b → ℝ)
    (target : Fin b → Fin b) : ℝ :=
  (∑ i, -(Real.log (Real.exp (logits i (target i)) / ∑ j, Real.exp (logits i j)))) / (b : ℝ)

/-- `infoNCE_loss_b(input_tensor, tau)` (src lines 29-36): flatten, L2-normalize
each row, form `matmul(reshaped, reshaped.T) / tau`, and take the cross
entropy against the `arange` labels `0..batch-1`. -/
noncomputable def infoNCE_loss_b (b s f : ℕ) (input_tensor : Fin b → Fin s → Fin f → ℝ)
    (tau : ℝ) : ℝ :=
  cross_entropy b
    (fun i j => (∑ k, l2normalize (s * f) (flattenRow b s f input_tensor i) k *
        l2normalize (s * f) (flattenRow b s f input_tensor j) k) / tau)
    (fun i => i)

/-- The Loss Engine contract stated from the spec's words (§4.2): flatten to
(batch, sequence×feature), L2-normalize each row, take the pairwise
dot-product similarity matrix scaled by 1/τ with τ = 0.07, and compute the
categorical cross-entropy of each row against its own index as target class. -/
noncomputable def lossEngineSpec (b s f : ℕ) (t : Fin b → Fin s → Fin f → ℝ) : ℝ :=
  cross_entropy b
    (fun i j => Matrix.dotProduct (l2normalize (s * f) (flattenRow b s f t i))
        (l2normalize (s * f) (flattenRow b s f t j)) / (0.07 : ℝ))
    (fun i => i)

/-- The recognized configuration options of the argument parser
(src lines 172-187); argparse turns each `--a-b` flag into attribute `a_b`. -/
structure Args where
  results_dir : String
  image_size : ℕ
  epochs : ℕ
  global_batch_size : ℕ
  global_seed : ℕ
  num_workers : ℕ
  log_every : ℕ
  vae : String
  ckpt_every : ℕ
  wandb : Bool
  embed_dim : ℕ
  autocast : Bool
  deriving DecidableEq

/-- `torch.cuda.amp.GradScaler`: its scale factor multiplies the loss when
enabled and is divided back out of the gradients by `step`. -/
structure GradScaler where
  enabled : Bool
  scaleFactor : ℚ
  deriving DecidableEq

/-- A freshly constructed `GradScaler()` is enabled with the default
`init_scale = 65536.0` (torch's documented default). -/
def GradScaler.init : GradScaler := ⟨true, 65536⟩

/-- `scaler = GradScaler()` (src line 53).  Note: the constructor call does not
consult `args.autocast`, so the scaler used by the loop is always enabled. -/
def mainScaler : GradScaler := GradScaler.init

/-- `scaler.scale(loss)` (src line 130): multiply by the scale factor when
enabled, identity otherwise. -/
def GradScaler.scale (sc : GradScaler) (loss : ℚ) : ℚ :=
  if sc.enabled then sc.scaleFactor * loss else loss

/-- The gradient actually applied by `scaler.step(opt)` (src line 131), which
unscales gradients before the optimizer update when the scaler is enabled. -/
def GradScaler.unscaleGrad (sc : GradScaler) (g : ℚ) : ℚ :=
  if sc.enabled then g / sc.scaleFactor else g

/-- Numeric precision of the forward pass. -/
inductive Precision
  | full
  | half
  deriving DecidableEq

/-- `with autocast(enabled=args.autocast)` (src line 118): the forward pass
runs in half precision exactly when the flag is set. -/
def autocastPrec (enabled : Bool) : Precision :=
  if enabled then Precision.half else Precision.full

/-- A destination that a log record is delivered to. -/
inductive Sink
  | stderr
  | file (path : String)
  deriving DecidableEq

/-- `create_logger(logging_dir)` (src lines 24-27): loguru's module-level
logger starts with its default stderr handler on every process; rank 0 adds a
file sink `{logging_dir}/log_{rank}.txt`, other ranks return the logger with
its default handler untouched. -/
def create_logger (rank : ℕ) (logging_dir : String) : List Sink :=
  if rank = 0 then
    [Sink.stderr, Sink.file (logging_dir ++ "/log_" ++ toString rank ++ ".txt")]
  else [Sink.stderr]

/-- Python `format(n, "0Wd")`: decimal representation left-padded with zeros. -/
def padZeros (width : ℕ) (n : ℕ) : String :=
  String.mk (List.replicate (width - (toString n).length) '0') ++ toString n

/-- `experiment_dir = f"{args.results_dir}/{experiment_index:03d}-vision_encoder"`
(src lines 66-68). -/
def experiment_dir (results_dir : String) (experiment_index : ℕ) : String :=
  results_dir ++ "/" ++ padZeros 3 experiment_index ++ "-vision_encoder"

/-- `checkpoint_dir = f"{experiment_dir}/checkpoints"` (src line 69). -/
def checkpoint_dir (results_dir : String) (experiment_index : ℕ) : String :=
  experiment_dir results_dir experiment_index ++ "/checkpoints"

/-- `checkpoint_path = f"{checkpoint_dir}/{train_steps:07d}.pt"` (src line 163). -/
def checkpoint_path (cdir : String) (train_steps : ℕ) : String :=
  cdir ++ "/" ++ padZeros 7 train_steps ++ ".pt"

/-- A value stored in the checkpoint mapping: a serialized state snapshot or
the run configuration. -/
inductive CkptVal (SD : Type)
  | state (sd : SD)
  | config (a : Args)
  deriving DecidableEq

/-- The checkpoint mapping of src lines 157-162, with its four keys in source
order.  `SD` is the opaque type of serialized `state_dict()` snapshots. -/
def mkCheckpoint (SD : Type) (modelSD emaSD optSD : SD) (args : Args) :
    List (String × CkptVal SD) :=
  [("model", CkptVal.state modelSD), ("ema", CkptVal.state emaSD),
   ("opt", CkptVal.state optSD), ("args", CkptVal.config args)]

/-- A scalar loss value: either a proper number or the float NaN. -/
inductive LossVal
  | nan
  | val (q : ℚ)
  deriving DecidableEq

/-- `torch.isnan(loss).any()` (src line 126). -/
def LossVal.isNaN : LossVal → Bool
  | LossVal.nan => true
  | LossVal.val _ => false

/-- The per-process mutable training state (src lines 96-99). -/
structure TrainState where
  train_steps : ℕ
  log_steps : ℕ
  running_loss : ℚ
  start_time : ℚ
  deriving DecidableEq

/-- The observable effects of one pass through the loop body, in program
order.  `SD` is the opaque type of serialized state snapshots. -/
inductive Event (SD : Type)
  | zero_grad
  | wandb_log (l : LossVal)
  | nan_warn
  | backward (scaled_loss : ℚ)
  | opt_step
  | scaler_update
  | ema_update
  | all_reduce (local_avg : ℚ)
  | log_line (rank : ℕ) (percent : ℚ) (step : ℕ) (avg_loss : ℚ) (steps_per_sec : ℚ)
  | ckpt_write (path : String) (ckpt : List (String × CkptVal SD))
  | ckpt_saved_log (path : String)
  | barrier
  deriving DecidableEq

/-- Everything the loop body reads but does not write: the process identity,
the parsed configuration, the run directory index, the current snapshots that
a checkpoint would serialize, the batch index `item` and the dataset length,
the current wall-clock time, the environment's collective sum (what
`dist.all_reduce(·, SUM)` returns for this process's contribution), and the
loss of this batch. -/
structure StepCtx (SD : Type) where
  rank : ℕ
  world_size : ℕ
  args : Args
  experiment_index : ℕ
  modelSD : SD
  emaSD : SD
  optSD : SD
  item : ℕ
  dataset_len : ℕ
  now : ℚ
  reduceSum : ℚ → ℚ
  lossv : LossVal

/-- `wandb.log({"loss": loss.item()})` guarded by rank 0 and the flag
(src lines 123-124); note it runs before the NaN check. -/
def wandbEvents (SD : Type) (ctx : StepCtx SD) : List (Event SD) :=
  if ctx.rank = 0 ∧ ctx.args.wandb then [Event.wandb_log ctx.lossv] else []

/-- The metrics block of src lines 139-153, entered when `train_steps`
(already incremented) hits a multiple of `log_every`: compute the local window
mean, all-reduce it, divide by world size, emit the log line, and reset the
window accumulators and timer. -/
def logBranch (SD : Type) (ctx : StepCtx SD) (st1 : TrainState) :
    TrainState × List (Event SD) :=
  if st1.train_steps % ctx.args.log_every = 0 then
    ({ st1 with running_loss := 0, log_steps := 0, start_time := ctx.now },
     [Event.all_reduce (st1.running_loss / (st1.log_steps : ℚ)),
      Event.log_line ctx.rank
        ((((ctx.args.global_batch_size / ctx.world_size : ℕ) : ℚ) * (ctx.item : ℚ) /
            (ctx.dataset_len : ℚ)) * 100)
        st1.train_steps
        (ctx.reduceSum (st1.running_loss / (st1.log_steps : ℚ)) / (ctx.world_size : ℚ))
        ((st1.log_steps : ℚ) / (ctx.now - st1.start_time))])
  else (st1, [])

/-- The checkpoint block of src lines 155-167: when the incremented step
counter is a positive multiple of `ckpt_every`, rank 0 writes the checkpoint
mapping to the step-derived path and logs it, and every rank hits the
barrier. -/
def ckptBranch (SD : Type) (ctx : StepCtx SD) (steps : ℕ) : List (Event SD) :=
  if steps % ctx.args.ckpt_every = 0 ∧ 0 < steps then
    (if ctx.rank = 0 then
      [Event.ckpt_write
         (checkpoint_path (checkpoint_dir ctx.args.results_dir ctx.experiment_index) steps)
         (mkCheckpoint SD ctx.modelSD ctx.emaSD ctx.optSD ctx.args),
       Event.ckpt_saved_log
         (checkpoint_path (checkpoint_dir ctx.args.results_dir ctx.experiment_index) steps)]
     else []) ++ [Event.barrier]
  else []

/-- The body of the inner loop of `main` for one batch (src lines 110-167),
starting after the loss has been computed: zero the gradients, maybe log to
the dashboard, and if the loss is NaN log a warning and skip the rest of the
body (`continue`, src line 128); otherwise run the scaled backward pass, the
optimizer step, the scaler update and the EMA update, accumulate the loss and
counters, and run the metrics and checkpoint blocks. -/
def processBatch (SD : Type) (ctx : StepCtx SD) (st : TrainState) :
    TrainState × List (Event SD) :=
  match ctx.lossv with
  | LossVal.nan => (st, (Event.zero_grad :: wandbEvents SD ctx) ++ [Event.nan_warn])
  | LossVal.val q =>
    let st1 : TrainState :=
      ⟨st.train_steps + 1, st.log_steps + 1, st.running_loss + q, st.start_time⟩
    let lb := logBranch SD ctx st1
    (lb.1, (Event.zero_grad :: wandbEvents SD ctx) ++
      [Event.backward (GradScaler.scale mainScaler q), Event.opt_step,
       Event.scaler_update, Event.ema_update] ++ lb.2 ++
      ckptBranch SD ctx lb.1.train_steps)

/-- `dist.all_reduce(·, op=dist.ReduceOp.SUM)` across a world of `W`
processes: every process receives the sum of all contributions. -/
def allReduceSum (W : ℕ) (xs : Fin W → ℚ) : Fin W → ℚ :=
  fun _ => ∑ i, xs i

/-- The metrics block of src lines 144-153 viewed across the whole process
group at once: every process computes its local window mean, the means are
summed by the collective, each process divides by the world size and resets
its window accumulators and timer.  Returns the per-process reported global
loss and the per-process successor states. -/
def metricsReport (W : ℕ) (sts : Fin W → TrainState) (now : ℚ) :
    (Fin W → ℚ) × (Fin W → TrainState) :=
  (fun i => allReduceSum W (fun j => (sts j).running_loss / ((sts j).log_steps : ℚ)) i /
      (W : ℚ),
   fun i => { sts i with running_loss := 0, log_steps := 0, start_time := now })

/-- The attribute names defined by the argument parser (src lines 172-187);
argparse stores each `--a-b` option as attribute `a_b` on the namespace. -/
def parserArgNames : List String :=
  ["results_dir", "image_size", "epochs", "global_batch_size", "global_seed",
   "num_workers", "log_every", "vae", "ckpt_every", "wandb", "embed_dim", "autocast"]

/-- `getattr(args, n)`: the attribute value when the parser defines it,
`AttributeError` (carrying the offending name) otherwise. -/
def getattrName (names : List String) (n : String) : Except String String :=
  if n ∈ names then Except.ok n else Except.error n

/-- The configuration attribute reads performed by `main` before the training
loop of src line 104, in program order (src lines 54-89; repeated reads of the
same attribute collapsed).  Reads on the rank-0-only path (src lines 60-72)
and the wandb-only path (src line 63) are conditional.  The dataset
construction at src line 89 reads the three `*_image_folder_train`
attributes. -/
def mainAttrReads (rank : ℕ) (wandbOn : Bool) : List String :=
  ["global_seed"] ++
  (if rank = 0 then
    ["wandb"] ++ (if wandbOn then ["epochs", "global_batch_size"] else []) ++
      ["results_dir"]
   else []) ++
  ["image_size", "embed_dim", "vae",
   "ct_image_folder_train", "mask_image_folder_train", "mir_image_folder_train"]

/-- Perform a sequence of attribute reads, stopping at the first
`AttributeError`. -/
def readAttrs : List String → Except String Unit
  | [] => Except.ok ()
  | n :: rest =>
    match getattrName parserArgNames n with
    | Except.error e => Except.error e
    | Except.ok _ => readAttrs rest

/-- `main(args)` as invoked from the `__main__` entry point, modelled up to
the training loop: the external preconditions of src lines 52-87 (device
available, pretrained weights loadable) are taken as satisfied, and the
remaining behaviour up to src line 104 is the sequence of configuration
attribute reads.  `Except.ok` would mean the training loop is reached. -/
def mainUntilLoop (rank : ℕ) (wandbOn : Bool) : Except String String :=
  match readAttrs (mainAttrReads rank wandbOn) with
  | Except.error e => Except.error e
  | Except.ok _ => Except.ok ("training_loop")

/-- The parsed default configuration (src lines 175-186), for witnesses. -/
def argsW : Args :=
  ⟨"results_ct", 224, 100, 32, 0, 4, 10, "ema", 6000, false, 512, false⟩

/-- Like `argsW` but with `log_every = 1`, for the C7 instances. -/
def argsLog : Args :=
  ⟨"results_ct", 224, 100, 32, 0, 4, 1, "ema", 6000, false, 512, false⟩

/-- A rank-0 single-process context whose batch produced a NaN loss. -/
def ctxNan : StepCtx ℕ :=
  ⟨0, 1, argsW, 0, 0, 0, 0, 1, 100, 0, fun q => q, LossVal.nan⟩

/-- A rank-0 single-process context whose batch produced loss 1. -/
def ctxCkpt : StepCtx ℕ :=
  ⟨0, 1, argsW, 0, 0, 0, 0, 1, 100, 0, fun q => q, LossVal.val 1⟩

/-- A rank-1 context in a world of two processes, batch loss 1; its
`reduceSum` doubles the contribution, standing for the other process
reporting the same local mean. -/
def ctxRank1 : StepCtx ℕ :=
  ⟨1, 2, argsLog, 0, 0, 0, 0, 1, 100, 2, fun q => q + q, LossVal.val 1⟩

/-- A mid-training state, for the C1 witness. -/
def stW : TrainState := ⟨5, 2, 3, 0⟩

/-- The initial training state (src lines 96-99). -/
def stZero : TrainState := ⟨0, 0, 0, 0⟩

/-- A state one step short of the first checkpoint boundary. -/
def stCkpt : TrainState := ⟨5999, 0, 0, 0⟩

/-- Four per-process window states with local means 1, 2, 3, 4 (spec §8,
Scenario 3). -/
def stsW4 : Fin 4 → TrainState := fun i => ⟨10, 1, ((i : ℕ) : ℚ) + 1, 0⟩

/-- Per-process contexts for the C4 witness: ranks 0..3 in a world of four,
each with the collective returning the true sum 10 of the four local means. -/
def ctxs4 : Fin 4 → StepCtx ℕ :=
  fun i => ⟨(i : ℕ), 4, argsLog, 0, 0, 0, 0, 1, 100, 7, fun _ => 10, LossVal.val 1⟩

theorem ParamSet.get_set_self (ps : ParamSet) (n : String) (t : Tensor) :
    ParamSet.get (ParamSet.set ps n t) n = (ParamSet.get ps n).map (fun _ => t) := by
  induction ps with
  | nil => rfl
  | cons kv rest ih =>
    obtain ⟨k, v⟩ := kv
    by_cases h : k = n
    · simp [ParamSet.set, ParamSet.get, h]
    · simp [ParamSet.set, ParamSet.get, h, ih]

theorem ParamSet.get_set_of_ne (ps : ParamSet) (n m : String) (t : Tensor) (h : m ≠ n) :
    ParamSet.get (ParamSet.set ps n t) m = ParamSet.get ps m := by
  have hnm : n ≠ m := fun e => h e.symm
  induction ps with
  | nil => rfl
  | cons kv rest ih =>
    obtain ⟨k, v⟩ := kv
    by_cases hk : k = n
    · subst hk
      simp [ParamSet.set, ParamSet.get, hnm, ih]
    · by_cases hkm : k = m
      · subst hkm
        simp [ParamSet.set, ParamSet.get, hk, ih]
      · simp [ParamSet.set, ParamSet.get, hk, hkm, ih]

theorem ParamSet.keys_set (ps : ParamSet) (n : String) (t : Tensor) :
    ParamSet.keys (ParamSet.set ps n t) = ParamSet.keys ps := by
  induction ps with
  | nil => rfl
  | cons kv rest ih =>
    obtain ⟨k, v⟩ := kv
    by_cases h : k = n
    · simp [ParamSet.set, ParamSet.keys, h] at ih ⊢
      exact ih
    · simp [ParamSet.set, ParamSet.keys, h] at ih ⊢
      exact ih

theorem ParamSet.get_eq_none_iff (ps : ParamSet) (n : String) :
    ParamSet.get ps n = none ↔ n ∉ ParamSet.keys ps := by
  induction ps with
  | nil => simp [ParamSet.get, ParamSet.keys]
  | cons kv rest ih =>
    obtain ⟨k, v⟩ := kv
    by_cases h : k = n
    · simp [ParamSet.get, ParamSet.keys, h]
    · simp [ParamSet.get, ParamSet.keys, h, ih]
      intro hn
      exact fun hkn => h hkn.symm

theorem ParamSet.get_set_eq_none_iff (ps : ParamSet) (n m : String) (t : Tensor) :
    ParamSet.get (ParamSet.set ps n t) m = none ↔ ParamSet.get ps m = none := by
  rw [ParamSet.get_eq_none_iff, ParamSet.get_eq_none_iff, ParamSet.keys_set]

/-- `update_ema` aborts exactly when some live parameter name is absent from
the shadow mapping. -/
theorem update_ema_eq_none_iff (model : ParamSet) (ema : ParamSet) (d : ℚ) :
    update_ema ema model d = none ↔ ∃ np ∈ model, ParamSet.get ema np.1 = none := by
  induction model generalizing ema with
  | nil => simp [update_ema]
  | cons np rest ih =>
    obtain ⟨n, p⟩ := np
    rw [update_ema]
    cases hg : ParamSet.get ema n with
    | none =>
      constructor
      · intro _
        exact ⟨(n, p), List.mem_cons_self _ _, hg⟩
      · intro _
        rfl
    | some s =>
      rw [ih]
      constructor
      · rintro ⟨mq, hm, hnone⟩
        exact ⟨mq, List.mem_cons_of_mem _ hm,
          (ParamSet.get_set_eq_none_iff ema n mq.1 (emaBlend d s p)).mp hnone⟩
      · rintro ⟨mq, hm, hnone⟩
        rcases List.mem_cons.mp hm with heq | hm2
        · exfalso
          rw [heq] at hnone
          have hnone2 : ParamSet.get ema n = none := hnone
          rw [hg] at hnone2
          cases hnone2
        · exact ⟨mq, hm2,
            (ParamSet.get_set_eq_none_iff ema n mq.1 (emaBlend d s p)).mpr hnone⟩

theorem update_ema_keys (model : ParamSet) (ema e2 : ParamSet) (d : ℚ)
    (h : update_ema ema model d = some e2) : ParamSet.keys e2 = ParamSet.keys ema := by
  induction model generalizing ema with
  | nil =>
    rw [update_ema] at h
    cases h
    rfl
  | cons np rest ih =>
    obtain ⟨n, p⟩ := np
    rw [update_ema] at h
    cases hg : ParamSet.get ema n with
    | none => rw [hg] at h; cases h
    | some s =>
      rw [hg] at h
      calc ParamSet.keys e2 = ParamSet.keys (ParamSet.set ema n (emaBlend d s p)) := ih _ h
        _ = ParamSet.keys ema := ParamSet.keys_set ema n (emaBlend d s p)

theorem update_ema_get_of_not_mem (model : ParamSet) (ema e2 : ParamSet) (d : ℚ)
    (n : String) (hn : n ∉ List.map Prod.fst model)
    (h : update_ema ema model d = some e2) :
    ParamSet.get e2 n = ParamSet.get ema n := by
  induction model generalizing ema with
  | nil =>
    rw [update_ema] at h
    cases h
    rfl
  | cons mp rest ih =>
    obtain ⟨m, p⟩ := mp
    have hnm : n ≠ m := by
      intro he
      exact hn (by simp [he])
    have hrest : n ∉ List.map Prod.fst rest := by
      intro hr
      exact hn (by simp [hr])
    rw [update_ema] at h
    cases hg : ParamSet.get ema m with
    | none => rw [hg] at h; cases h
    | some s =>
      rw [hg] at h
      calc ParamSet.get e2 n = ParamSet.get (ParamSet.set ema m (emaBlend d s p)) n :=
            ih _ hrest h
        _ = ParamSet.get ema n := ParamSet.get_set_of_ne ema m n (emaBlend d s p) hnm

theorem update_ema_get_of_mem (model : ParamSet) (ema e2 : ParamSet) (d : ℚ)
    (hnodup : (List.map Prod.fst model).Nodup)
    (h : update_ema ema model d = some e2) :
    ∀ n p, (n, p) ∈ model → ∀ s, ParamSet.get ema n = some s →
      ParamSet.get e2 n = some (emaBlend d s p) := by
  induction model generalizing ema with
  | nil =>
    intro n p hnp
    exact absurd hnp (List.not_mem_nil _)
  | cons mp rest ih =>
    obtain ⟨m, q⟩ := mp
    have hmrest : m ∉ List.map Prod.fst rest := by
      intro hmem
      exact (List.nodup_cons.mp hnodup).1 hmem
    have hrestnodup : (List.map Prod.fst rest).Nodup := (List.nodup_cons.mp hnodup).2
    rw [update_ema] at h
    cases hg : ParamSet.get ema m with
    | none =>
      rw [hg] at h
      cases h
    | some s0 =>
      rw [hg] at h
      intro n p hnp s hs
      rcases List.mem_cons.mp hnp with heq | hmem
      · have hnm : n = m := congrArg Prod.fst heq
        have hpq : p = q := congrArg Prod.snd heq
        subst hnm
        subst hpq
        rw [hg] at hs
        have hss : s0 = s := Option.some_inj.mp hs
        subst hss
        rw [update_ema_get_of_not_mem rest _ e2 d n hmrest h]
        rw [ParamSet.get_set_self, hg]
        rfl
      · have hne : n ≠ m := by
          intro he
          subst he
          exact hmrest (List.mem_map_of_mem Prod.fst hmem)
        have hs2 : ParamSet.get (ParamSet.set ema m (emaBlend d s0 q)) n = some s := by
          rw [ParamSet.get_set_of_ne ema m n (emaBlend d s0 q) hne]
          exact hs
        exact ih _ hrestnodup h n p hmem s hs2

theorem emaBlend_zero (s l : Tensor) (h : s.length = l.length) : emaBlend 0 s l = l := by
  induction s generalizing l with
  | nil =>
    cases l with
    | nil => rfl
    | cons b bs => simp at h
  | cons a as ih =>
    cases l with
    | nil => simp at h
    | cons b bs =>
      simp only [emaBlend, List.zipWith] at ih ⊢
      have hb : a * 0 + b * (1 - 0) = b := by ring
      rw [hb, ih bs (by simpa using h)]

/-- C2: for every decay `d` and every parameter name present in the live model,
one EMA update sets the shadow tensor element-wise to
`shadow * d + live * (1 - d)`; in particular, an update with `d = 0` makes
every shadow parameter that has a live counterpart exactly equal to it.  The
shadow key set is unchanged.  (`update_ema`, src lines 38-48; the `decay=0`
initialization call is src line 92.) -/
theorem ema_update_law (ema model : ParamSet) (d : ℚ)
    (hnodup : (List.map Prod.fst model).Nodup)
    (hkeys : ∀ np ∈ model, ∃ s, ParamSet.get ema np.1 = some s ∧ s.length = np.2.length) :
    ∃ e2, update_ema ema model d = some e2 ∧
      ParamSet.keys e2 = ParamSet.keys ema ∧
      (∀ n p, (n, p) ∈ model → ∀ s, ParamSet.get ema n = some s →
        ParamSet.get e2 n = some (emaBlend d s p)) ∧
      (d = 0 → ∀ n p, (n, p) ∈ model → ParamSet.get e2 n = some p) := by
  cases h : update_ema ema model d with
  | none =>
    exfalso
    obtain ⟨np, hmem, hnone⟩ := (update_ema_eq_none_iff model ema d).mp h
    obtain ⟨s, hs, _⟩ := hkeys np hmem
    rw [hs] at hnone
    cases hnone
  | some e2 =>
    refine ⟨e2, rfl, update_ema_keys model ema e2 d h,
      update_ema_get_of_mem model ema e2 d hnodup h, ?_⟩
    intro hd n p hnp
    obtain ⟨s, hs, hlen⟩ := hkeys (n, p) hnp
    have hget := update_ema_get_of_mem model ema e2 d hnodup h n p hnp s hs
    rw [hget, hd, emaBlend_zero s p hlen]

/-- Witness for C2 at the zero-decay initialization call (src line 92):
shadow `{w: [0]}`, live `{w: [1]}`, decay `0`. -/
theorem ema_update_law_witness :
    (List.map Prod.fst liveW).Nodup ∧
    (∀ np ∈ liveW, ∃ s, ParamSet.get emaW np.1 = some s ∧ s.length = np.2.length) ∧
    (∃ e2, update_ema emaW liveW 0 = some e2 ∧
      ParamSet.keys e2 = ParamSet.keys emaW ∧
      (∀ n p, (n, p) ∈ liveW → ∀ s, ParamSet.get emaW n = some s →
        ParamSet.get e2 n = some (emaBlend 0 s p)) ∧
      ((0 : ℚ) = 0 → ∀ n p, (n, p) ∈ liveW → ParamSet.get e2 n = some p)) :=
  ⟨by decide,
   fun np hnp => by
     simp only [liveW, List.mem_singleton] at hnp
     subst hnp
     exact ⟨[0], by decide, by decide⟩,
   ema_update_law emaW liveW 0 (by decide)
     (fun np hnp => by
       simp only [liveW, List.mem_singleton] at hnp
       subst hnp
       exact ⟨[0], by decide, by decide⟩)⟩

/-- C8 counterexample: the claim says any key-set difference between shadow and
live, in either direction, aborts the EMA update.  Here the key sets differ
(`b` is present only in the shadow), yet `update_ema` completes silently,
because the loop of src lines 46-48 only iterates over live names. -/
theorem ema_mismatch_counterexample :
    ("b" ∈ ParamSet.keys emaMismatch ∧ "b" ∉ ParamSet.keys liveMismatch) ∧
    (update_ema emaMismatch liveMismatch (1/2)).isSome = true := by decide

/-- C8 (amended): the EMA update aborts with a `KeyError` exactly when some
parameter name of the live model is absent from the shadow; a shadow name
absent from the live model is silently ignored. -/
theorem ema_key_mismatch_iff (ema model : ParamSet) (d : ℚ) :
    update_ema ema model d = none ↔ ∃ np ∈ model, np.1 ∉ ParamSet.keys ema := by
  rw [update_ema_eq_none_iff]
  constructor
  · rintro ⟨np, h1, h2⟩
    exact ⟨np, h1, (ParamSet.get_eq_none_iff ema np.1).mp h2⟩
  · rintro ⟨np, h1, h2⟩
    exact ⟨np, h1, (ParamSet.get_eq_none_iff ema np.1).mpr h2⟩

/-- C3: on every embedding tensor of shape (batch, sequence, feature), the loss
engine `infoNCE_loss_b` at its default temperature τ = 0.07 computes exactly
the categorical cross-entropy, against the identity labels, of the pairwise
similarity matrix of the flattened, row-normalized samples divided by τ. -/
theorem loss_engine_refines_spec (b s f : ℕ) (t : Fin b → Fin s → Fin f → ℝ) :
    infoNCE_loss_b b s f t 0.07 = lossEngineSpec b s f t := by
  unfold infoNCE_loss_b lossEngineSpec Matrix.dotProduct
  rfl

theorem l2normalize_smul (n : ℕ) (v : Fin n → ℝ) (c : ℝ) (hc : 0 < c) :
    l2normalize n (fun k => c * v k) = l2normalize n v := by
  funext k
  unfold l2normalize
  have h1 : (∑ j, (c * v j) ^ 2) = c ^ 2 * ∑ j, v j ^ 2 := by
    rw [Finset.mul_sum]
    exact Finset.sum_congr rfl (fun j _ => by ring)
  rw [h1, Real.sqrt_mul (sq_nonneg c), Real.sqrt_sq hc.le,
    mul_div_mul_left (v k) _ (ne_of_gt hc)]

/-- C10: for every embedding tensor whose flattened rows are all nonzero and
every positive scalar `c`, the loss engine returns the same value on the
tensor scaled by `c` as on the original: per-row L2 normalization makes the
loss invariant under uniform positive rescaling of its input. -/
theorem loss_scale_invariance (b s f : ℕ) (t : Fin b → Fin s → Fin f → ℝ) (c : ℝ)
    (hc : 0 < c) (hrows : ∀ i, ∃ k, flattenRow b s f t i k ≠ 0) :
    infoNCE_loss_b b s f (fun i a j => c * t i a j) 0.07 =
      infoNCE_loss_b b s f t 0.07 := by
  have hrow : ∀ i, l2normalize (s * f) (flattenRow b s f (fun i a j => c * t i a j) i) =
      l2normalize (s * f) (flattenRow b s f t i) := by
    intro i
    have he : flattenRow b s f (fun i a j => c * t i a j) i =
        fun k => c * flattenRow b s f t i k := rfl
    rw [he, l2normalize_smul (s * f) (flattenRow b s f t i) c hc]
  unfold infoNCE_loss_b
  simp only [hrow]

/-- Witness for C10: the constant tensor with entry 1 of shape (1, 1, 1),
scaled by 2. -/
theorem loss_scale_invariance_witness :
    (0 : ℝ) < 2 ∧
    (∀ i : Fin 1, ∃ k, flattenRow 1 1 1 (fun _ _ _ => (1 : ℝ)) i k ≠ 0) ∧
    infoNCE_loss_b 1 1 1 (fun i a j => 2 * (fun _ _ _ => (1 : ℝ)) i a j) 0.07 =
      infoNCE_loss_b 1 1 1 (fun _ _ _ => (1 : ℝ)) 0.07 :=
  ⟨by norm_num,
   fun i => ⟨⟨0, by norm_num⟩, one_ne_zero⟩,
   loss_scale_invariance 1 1 1 (fun _ _ _ => (1 : ℝ)) 2 (by norm_num)
     (fun i => ⟨⟨0, by norm_num⟩, one_ne_zero⟩)⟩

theorem mem_nanEvents_sub (SD : Type) (ctx : StepCtx SD) (e : Event SD)
    (hx : e ∈ (Event.zero_grad :: wandbEvents SD ctx) ++ [Event.nan_warn]) :
    e = Event.zero_grad ∨ e = Event.wandb_log ctx.lossv ∨ e = Event.nan_warn := by
  unfold wandbEvents at hx
  rcases List.mem_append.mp hx with hx2 | hx2
  · rcases List.mem_cons.mp hx2 with h1 | h1
    · exact Or.inl h1
    · split at h1
      · simp at h1
        exact Or.inr (Or.inl h1)
      · simp at h1
  · simp at hx2
    exact Or.inr (Or.inr hx2)

theorem processBatch_nan (SD : Type) (ctx : StepCtx SD) (st : TrainState)
    (h : ctx.lossv = LossVal.nan) :
    processBatch SD ctx st =
      (st, (Event.zero_grad :: wandbEvents SD ctx) ++ [Event.nan_warn]) := by
  unfold processBatch
  rw [h]

theorem processBatch_val (SD : Type) (ctx : StepCtx SD) (st : TrainState) (q : ℚ)
    (h : ctx.lossv = LossVal.val q) :
    processBatch SD ctx st =
      ((logBranch SD ctx
          ⟨st.train_steps + 1, st.log_steps + 1, st.running_loss + q, st.start_time⟩).1,
       (Event.zero_grad :: wandbEvents SD ctx) ++
         [Event.backward (GradScaler.scale mainScaler q), Event.opt_step,
          Event.scaler_update, Event.ema_update] ++
         (logBranch SD ctx
           ⟨st.train_steps + 1, st.log_steps + 1, st.running_loss + q, st.start_time⟩).2 ++
         ckptBranch SD ctx
           (logBranch SD ctx
             ⟨st.train_steps + 1, st.log_steps + 1, st.running_loss + q,
              st.start_time⟩).1.train_steps) := by
  unfold processBatch
  rw [h]

theorem logBranch_train_steps (SD : Type) (ctx : StepCtx SD) (st1 : TrainState) :
    (logBranch SD ctx st1).1.train_steps = st1.train_steps := by
  unfold logBranch
  split <;> rfl

theorem logBranch_pos (SD : Type) (ctx : StepCtx SD) (st1 : TrainState)
    (h : st1.train_steps % ctx.args.log_every = 0) :
    logBranch SD ctx st1 =
      ({ st1 with running_loss := 0, log_steps := 0, start_time := ctx.now },
       [Event.all_reduce (st1.running_loss / (st1.log_steps : ℚ)),
        Event.log_line ctx.rank
          ((((ctx.args.global_batch_size / ctx.world_size : ℕ) : ℚ) * (ctx.item : ℚ) /
              (ctx.dataset_len : ℚ)) * 100)
          st1.train_steps
          (ctx.reduceSum (st1.running_loss / (st1.log_steps : ℚ)) / (ctx.world_size : ℚ))
          ((st1.log_steps : ℚ) / (ctx.now - st1.start_time))]) := by
  unfold logBranch
  rw [if_pos h]

theorem ckpt_write_not_mem_head (SD : Type) (ctx : StepCtx SD) (q : ℚ) (p : String)
    (c : List (String × CkptVal SD)) :
    Event.ckpt_write p c ∉ (Event.zero_grad :: wandbEvents SD ctx) ++
      [Event.backward (GradScaler.scale mainScaler q), Event.opt_step,
       Event.scaler_update, Event.ema_update] := by
  unfold wandbEvents
  split <;> simp

theorem ckpt_write_not_mem_logBranch (SD : Type) (ctx : StepCtx SD) (st1 : TrainState)
    (p : String) (c : List (String × CkptVal SD)) :
    Event.ckpt_write p c ∉ (logBranch SD ctx st1).2 := by
  unfold logBranch
  split <;> simp

theorem ckpt_write_mem_ckptBranch (SD : Type) (ctx : StepCtx SD) (steps : ℕ)
    (p : String) (c : List (String × CkptVal SD)) :
    Event.ckpt_write p c ∈ ckptBranch SD ctx steps ↔
      (steps % ctx.args.ckpt_every = 0 ∧ 0 < steps ∧ ctx.rank = 0 ∧
       p = checkpoint_path (checkpoint_dir ctx.args.results_dir ctx.experiment_index)
           steps ∧
       c = mkCheckpoint SD ctx.modelSD ctx.emaSD ctx.optSD ctx.args) := by
  unfold ckptBranch
  split
  · rename_i hcond
    split
    · rename_i hrank
      constructor
      · intro hx
        simp only [List.mem_append, List.mem_cons, List.not_mem_nil, or_false] at hx
        rcases hx with (he | he) | he
        · injection he with hp hc
          subst hp
          subst hc
          exact ⟨hcond.1, hcond.2, hrank, rfl, rfl⟩
        · exact absurd he (by simp)
        · exact absurd he (by simp)
      · rintro ⟨-, -, -, hp, hc⟩
        subst hp
        subst hc
        simp
    · rename_i hrank
      constructor
      · intro hx
        simp only [List.nil_append, List.mem_singleton] at hx
        exact absurd hx (by simp)
      · rintro ⟨-, -, h0, -, -⟩
        exact absurd h0 hrank
  · rename_i hcond
    constructor
    · intro hx
      exact absurd hx (List.not_mem_nil _)
    · rintro ⟨h1, h2, -, -, -⟩
      exact absurd ⟨h1, h2⟩ hcond

/-- C1: on a step whose loss is NaN the coordinator performs no backward
pass, no optimizer step, no scaler update, no EMA update and no checkpoint
write, and the whole training state — global step counter, log-window loss
sum, log-window step count — is unchanged: the step is fully skipped, not
treated as a zero-loss step (src lines 126-128). -/
theorem nan_step_full_skip (SD : Type) (ctx : StepCtx SD) (st : TrainState)
    (h : ctx.lossv = LossVal.nan) :
    (processBatch SD ctx st).1 = st ∧
    (∀ x, Event.backward x ∉ (processBatch SD ctx st).2) ∧
    Event.opt_step ∉ (processBatch SD ctx st).2 ∧
    Event.scaler_update ∉ (processBatch SD ctx st).2 ∧
    Event.ema_update ∉ (processBatch SD ctx st).2 ∧
    (∀ p c, Event.ckpt_write p c ∉ (processBatch SD ctx st).2) := by
  rw [processBatch_nan SD ctx st h]
  refine ⟨rfl, ?_, ?_, ?_, ?_, ?_⟩
  · intro x hx
    rcases mem_nanEvents_sub SD ctx _ hx with h1 | h1 | h1 <;> simp at h1
  · intro hx
    rcases mem_nanEvents_sub SD ctx _ hx with h1 | h1 | h1 <;> simp at h1
  · intro hx
    rcases mem_nanEvents_sub SD ctx _ hx with h1 | h1 | h1 <;> simp at h1
  · intro hx
    rcases mem_nanEvents_sub SD ctx _ hx with h1 | h1 | h1 <;> simp at h1
  · intro p c hx
    rcases mem_nanEvents_sub SD ctx _ hx with h1 | h1 | h1 <;> simp at h1

/-- Witness for C1 at a concrete NaN batch in mid-training state. -/
theorem nan_step_full_skip_witness :
    ctxNan.lossv = LossVal.nan ∧
    ((processBatch ℕ ctxNan stW).1 = stW ∧
     (∀ x, Event.backward x ∉ (processBatch ℕ ctxNan stW).2) ∧
     Event.opt_step ∉ (processBatch ℕ ctxNan stW).2 ∧
     Event.scaler_update ∉ (processBatch ℕ ctxNan stW).2 ∧
     Event.ema_update ∉ (processBatch ℕ ctxNan stW).2 ∧
     (∀ p c, Event.ckpt_write p c ∉ (processBatch ℕ ctxNan stW).2)) :=
  ⟨rfl, nan_step_full_skip ℕ ctxNan stW rfl⟩

/-- C4: at a metrics report each of the W processes computes its local window
mean `log_window_loss_sum / log_window_count`, the means are summed by the
collective all-reduce and divided by the world size, so every process reports
the global loss (Σ a_i)/W; afterwards each process's window loss sum, window
step count and window timer are reset, the step counter untouched (src lines
139-153).  The per-process code `logBranch`, run with the collective's sum,
emits exactly the world-level value and performs exactly the world-level
reset. -/
theorem metrics_aggregation_correct (SD : Type) (W : ℕ) (ctxs : Fin W → StepCtx SD)
    (sts : Fin W → TrainState) (now : ℚ)
    (hW : 0 < W) (hcnt : ∀ i, 0 < (sts i).log_steps)
    (hworld : ∀ i, (ctxs i).world_size = W)
    (hnow : ∀ i, (ctxs i).now = now)
    (hred : ∀ i, (ctxs i).reduceSum ((sts i).running_loss / ((sts i).log_steps : ℚ)) =
      allReduceSum W (fun j => (sts j).running_loss / ((sts j).log_steps : ℚ)) i)
    (hlog : ∀ i, (sts i).train_steps % (ctxs i).args.log_every = 0) :
    (∀ i, (metricsReport W sts now).1 i =
      (∑ j, (sts j).running_loss / ((sts j).log_steps : ℚ)) / (W : ℚ)) ∧
    (∀ i, ∃ pc sp, Event.log_line (ctxs i).rank pc (sts i).train_steps
        ((metricsReport W sts now).1 i) sp ∈ (logBranch SD (ctxs i) (sts i)).2) ∧
    (∀ i, (logBranch SD (ctxs i) (sts i)).1 = (metricsReport W sts now).2 i) := by
  refine ⟨fun i => rfl, fun i => ?_, fun i => ?_⟩
  · rw [logBranch_pos SD (ctxs i) (sts i) (hlog i)]
    refine ⟨(((ctxs i).args.global_batch_size / (ctxs i).world_size : ℕ) : ℚ) *
        ((ctxs i).item : ℚ) / ((ctxs i).dataset_len : ℚ) * 100,
      ((sts i).log_steps : ℚ) / ((ctxs i).now - (sts i).start_time), ?_⟩
    have h1 : (ctxs i).reduceSum ((sts i).running_loss / ((sts i).log_steps : ℚ)) /
        ((ctxs i).world_size : ℚ) = (metricsReport W sts now).1 i := by
      rw [hred i, hworld i]
      rfl
    rw [← h1]
    exact List.mem_cons_of_mem _ (List.mem_cons_self _ _)
  · rw [logBranch_pos SD (ctxs i) (sts i) (hlog i), hnow i]
    rfl

/-- Witness for C4: four processes with local window means 1, 2, 3, 4
(Scenario 3 of the spec); each reports (1+2+3+4)/4 = 5/2. -/
theorem metrics_aggregation_correct_witness :
    (0 < 4) ∧ (∀ i, 0 < (stsW4 i).log_steps) ∧
    (∀ i, (ctxs4 i).world_size = 4) ∧ (∀ i, (ctxs4 i).now = 7) ∧
    (∀ i, (ctxs4 i).reduceSum ((stsW4 i).running_loss / ((stsW4 i).log_steps : ℚ)) =
      allReduceSum 4 (fun j => (stsW4 j).running_loss / ((stsW4 j).log_steps : ℚ)) i) ∧
    (∀ i, (stsW4 i).train_steps % (ctxs4 i).args.log_every = 0) ∧
    ((∀ i, (metricsReport 4 stsW4 7).1 i =
        (∑ j, (stsW4 j).running_loss / ((stsW4 j).log_steps : ℚ)) / (4 : ℚ)) ∧
     (∀ i, ∃ pc sp, Event.log_line (ctxs4 i).rank pc (stsW4 i).train_steps
         ((metricsReport 4 stsW4 7).1 i) sp ∈ (logBranch ℕ (ctxs4 i) (stsW4 i)).2) ∧
     (∀ i, (logBranch ℕ (ctxs4 i) (stsW4 i)).1 = (metricsReport 4 stsW4 7).2 i)) ∧
    (metricsReport 4 stsW4 7).1 0 = 5 / 2 :=
  ⟨by decide, by decide, by decide, fun i => rfl,
   fun i => by
     show (10 : ℚ) = ∑ j : Fin 4, (stsW4 j).running_loss / ((stsW4 j).log_steps : ℚ)
     rw [Fin.sum_univ_four]
     show (10 : ℚ) =
       (((0 : ℕ) : ℚ) + 1) / ((1 : ℕ) : ℚ) + (((1 : ℕ) : ℚ) + 1) / ((1 : ℕ) : ℚ) +
       (((2 : ℕ) : ℚ) + 1) / ((1 : ℕ) : ℚ) + (((3 : ℕ) : ℚ) + 1) / ((1 : ℕ) : ℚ)
     norm_num,
   by decide,
   metrics_aggregation_correct ℕ 4 ctxs4 stsW4 7 (by decide) (by decide) (by decide)
     (fun i => rfl)
     (fun i => by
       show (10 : ℚ) = ∑ j : Fin 4, (stsW4 j).running_loss / ((stsW4 j).log_steps : ℚ)
       rw [Fin.sum_univ_four]
       show (10 : ℚ) =
         (((0 : ℕ) : ℚ) + 1) / ((1 : ℕ) : ℚ) + (((1 : ℕ) : ℚ) + 1) / ((1 : ℕ) : ℚ) +
         (((2 : ℕ) : ℚ) + 1) / ((1 : ℕ) : ℚ) + (((3 : ℕ) : ℚ) + 1) / ((1 : ℕ) : ℚ)
       norm_num)
     (by decide),
   by
     show (∑ j : Fin 4, (stsW4 j).running_loss / ((stsW4 j).log_steps : ℚ)) /
       ((4 : ℕ) : ℚ) = 5 / 2
     rw [Fin.sum_univ_four]
     show ((((0 : ℕ) : ℚ) + 1) / ((1 : ℕ) : ℚ) + (((1 : ℕ) : ℚ) + 1) / ((1 : ℕ) : ℚ) +
       (((2 : ℕ) : ℚ) + 1) / ((1 : ℕ) : ℚ) + (((3 : ℕ) : ℚ) + 1) / ((1 : ℕ) : ℚ)) /
       ((4 : ℕ) : ℚ) = 5 / 2
     norm_num⟩

/-- C5 counterexample: at the first checkpoint boundary the coordinator
writes to `<results_dir>/<NNN>-vision_encoder/checkpoints/<step:07d>.pt`
(src line 163); the claim's path `.../<step:07d>` lacks the `.pt` suffix, so
the claim as stated names a path at which nothing is written. -/
theorem ckpt_path_counterexample :
    Event.ckpt_write (checkpoint_path (checkpoint_dir ("results_ct") 0) 6000)
        (mkCheckpoint ℕ 0 0 0 argsW) ∈ (processBatch ℕ ctxCkpt stCkpt).2 ∧
    checkpoint_path (checkpoint_dir ("results_ct") 0) 6000 =
      "results_ct/000-vision_encoder/checkpoints/0006000.pt" ∧
    "results_ct/000-vision_encoder/checkpoints/0006000.pt" ≠
      "results_ct/000-vision_encoder/checkpoints/0006000" := by
  refine ⟨?_, by decide, by decide⟩
  have hmem : Event.ckpt_write (checkpoint_path (checkpoint_dir ("results_ct") 0) 6000)
      (mkCheckpoint ℕ 0 0 0 argsW) ∈ ckptBranch ℕ ctxCkpt 6000 :=
    (ckpt_write_mem_ckptBranch ℕ ctxCkpt 6000 _ _).mpr
      ⟨by decide, by decide, rfl, rfl, rfl⟩
  rw [processBatch_val ℕ ctxCkpt stCkpt 1 rfl]
  exact List.mem_append.mpr (Or.inr hmem)

/-- C5 (amended): on each batch, a checkpoint write occurs exactly when the
loss was not NaN, the process is rank 0, and the incremented global step
counter is a positive multiple of `ckpt_every`; the written value is the
mapping with keys `model`, `ema`, `opt`, `args`, stored at
`<results_dir>/<NNN>-vision_encoder/checkpoints/<step:07d>.pt` — the claim's
path amended with the `.pt` suffix (src lines 155-167). -/
theorem ckpt_cadence_amended (SD : Type) (ctx : StepCtx SD) (st : TrainState)
    (hce : 0 < ctx.args.ckpt_every) :
    ((∃ p c, Event.ckpt_write p c ∈ (processBatch SD ctx st).2) ↔
      (ctx.rank = 0 ∧ (∃ q, ctx.lossv = LossVal.val q) ∧
       ctx.args.ckpt_every ∣ (st.train_steps + 1) ∧ 0 < st.train_steps + 1)) ∧
    (∀ p c, Event.ckpt_write p c ∈ (processBatch SD ctx st).2 →
      p = checkpoint_path (checkpoint_dir ctx.args.results_dir ctx.experiment_index)
          (st.train_steps + 1) ∧
      List.map Prod.fst c = ["model", "ema", "opt", "args"]) := by
  cases hl : ctx.lossv with
  | nan =>
    constructor
    · constructor
      · rintro ⟨p, c, hx⟩
        rw [processBatch_nan SD ctx st hl] at hx
        rcases mem_nanEvents_sub SD ctx _ hx with h1 | h1 | h1 <;> simp at h1
      · rintro ⟨-, ⟨q, hq⟩, -, -⟩
        cases hq
    · intro p c hx
      rw [processBatch_nan SD ctx st hl] at hx
      rcases mem_nanEvents_sub SD ctx _ hx with h1 | h1 | h1 <;> simp at h1
  | val q =>
    have hsteps : (logBranch SD ctx
        ⟨st.train_steps + 1, st.log_steps + 1, st.running_loss + q,
         st.start_time⟩).1.train_steps = st.train_steps + 1 :=
      logBranch_train_steps SD ctx _
    constructor
    · constructor
      · rintro ⟨p, c, hx⟩
        rw [processBatch_val SD ctx st q hl] at hx
        rcases List.mem_append.mp hx with hx2 | hx2
        · rcases List.mem_append.mp hx2 with hx3 | hx3
          · exact absurd hx3 (ckpt_write_not_mem_head SD ctx q p c)
          · exact absurd hx3 (ckpt_write_not_mem_logBranch SD ctx _ p c)
        · rw [hsteps] at hx2
          obtain ⟨hmod, hpos, hrank, -, -⟩ :=
            (ckpt_write_mem_ckptBranch SD ctx _ p c).mp hx2
          exact ⟨hrank, ⟨q, rfl⟩, Nat.dvd_of_mod_eq_zero hmod, hpos⟩
      · rintro ⟨hrank, ⟨q2, hq2⟩, hdvd, -⟩
        refine ⟨checkpoint_path
            (checkpoint_dir ctx.args.results_dir ctx.experiment_index)
            (st.train_steps + 1),
          mkCheckpoint SD ctx.modelSD ctx.emaSD ctx.optSD ctx.args, ?_⟩
        rw [processBatch_val SD ctx st q hl]
        refine List.mem_append.mpr (Or.inr ?_)
        rw [hsteps]
        exact (ckpt_write_mem_ckptBranch SD ctx _ _ _).mpr
          ⟨Nat.mod_eq_zero_of_dvd hdvd, Nat.succ_pos _, hrank, rfl, rfl⟩
    · intro p c hx
      rw [processBatch_val SD ctx st q hl] at hx
      rcases List.mem_append.mp hx with hx2 | hx2
      · rcases List.mem_append.mp hx2 with hx3 | hx3
        · exact absurd hx3 (ckpt_write_not_mem_head SD ctx q p c)
        · exact absurd hx3 (ckpt_write_not_mem_logBranch SD ctx _ p c)
      · rw [hsteps] at hx2
        obtain ⟨-, -, -, hp, hc⟩ := (ckpt_write_mem_ckptBranch SD ctx _ p c).mp hx2
        subst hp
        subst hc
        exact ⟨rfl, rfl⟩

/-- Witness for C5 (amended) at the first checkpoint boundary (step 6000 with
the default `ckpt_every = 6000`). -/
theorem ckpt_cadence_amended_witness :
    0 < ctxCkpt.args.ckpt_every ∧
    (((∃ p c, Event.ckpt_write p c ∈ (processBatch ℕ ctxCkpt stCkpt).2) ↔
       (ctxCkpt.rank = 0 ∧ (∃ q, ctxCkpt.lossv = LossVal.val q) ∧
        ctxCkpt.args.ckpt_every ∣ (stCkpt.train_steps + 1) ∧
        0 < stCkpt.train_steps + 1)) ∧
     (∀ p c, Event.ckpt_write p c ∈ (processBatch ℕ ctxCkpt stCkpt).2 →
       p = checkpoint_path
           (checkpoint_dir ctxCkpt.args.results_dir ctxCkpt.experiment_index)
           (stCkpt.train_steps + 1) ∧
       List.map Prod.fst c = ["model", "ema", "opt", "args"])) :=
  ⟨by decide, ckpt_cadence_amended ℕ ctxCkpt stCkpt (by decide)⟩

/-- C6 counterexample: `GradScaler()` at src line 53 is constructed enabled
regardless of `args.autocast`, so with the mixed-precision flag disabled the
loss reaching backward on a loss-1 step is 65536, not 1: the scaler's scale
is not a no-op pass-through when autocast is disabled. -/
theorem scaler_passthrough_counterexample :
    argsW.autocast = false ∧
    GradScaler.scale mainScaler 1 = 65536 ∧ (65536 : ℚ) ≠ 1 ∧
    Event.backward (GradScaler.scale mainScaler 1) ∈ (processBatch ℕ ctxCkpt stZero).2 := by
  refine ⟨rfl, ?_, by norm_num, ?_⟩
  · show (65536 : ℚ) * 1 = 65536
    norm_num
  · rw [processBatch_val ℕ ctxCkpt stZero 1 rfl]
    refine List.mem_append.mpr (Or.inl (List.mem_append.mpr (Or.inl
      (List.mem_append.mpr (Or.inr ?_)))))
    exact List.mem_cons_self _ _

/-- C6 (amended): when the mixed-precision flag is disabled the forward pass
runs at full precision, but the gradient scaler of src line 53 is enabled no
matter the flag: it multiplies the loss passed to backward by its default
scale factor 65536, and `step` divides the same factor back out of the
gradients, so only the optimizer update is unaffected by the scaler. -/
theorem scaler_always_enabled (args : Args) (l g : ℚ) (h : args.autocast = false) :
    autocastPrec args.autocast = Precision.full ∧
    mainScaler.enabled = true ∧
    GradScaler.scale mainScaler l = 65536 * l ∧
    GradScaler.unscaleGrad mainScaler (GradScaler.scale mainScaler g) = g := by
  rw [h]
  refine ⟨rfl, rfl, rfl, ?_⟩
  show (65536 : ℚ) * g / 65536 = g
  exact mul_div_cancel_left₀ g (by norm_num)

/-- Witness for C6 (amended) at the default configuration. -/
theorem scaler_always_enabled_witness :
    argsW.autocast = false ∧
    (autocastPrec argsW.autocast = Precision.full ∧
     mainScaler.enabled = true ∧
     GradScaler.scale mainScaler 1 = 65536 * 1 ∧
     GradScaler.unscaleGrad mainScaler (GradScaler.scale mainScaler 3) = 3) :=
  ⟨rfl, scaler_always_enabled argsW 1 3 rfl⟩

/-- C7 counterexample: with `log_every = 1`, a rank-1 process reaching the
metrics report executes the consolidated metrics log call itself — src line
148 carries no rank guard — and rank 1's logger still has loguru's default
stderr sink, so the line is emitted there: the claim that nonzero ranks emit
no log line is false. -/
theorem metrics_log_rank1_counterexample :
    ctxRank1.rank = 1 ∧
    (∃ pc av sp, Event.log_line 1 pc 1 av sp ∈ (processBatch ℕ ctxRank1 stZero).2) ∧
    Sink.stderr ∈ create_logger 1 ("d") := by
  refine ⟨rfl, ?_, by decide⟩
  have hlb := logBranch_pos ℕ ctxRank1
    ⟨stZero.train_steps + 1, stZero.log_steps + 1, stZero.running_loss + 1,
     stZero.start_time⟩ (by decide)
  refine ⟨((ctxRank1.args.global_batch_size / ctxRank1.world_size : ℕ) : ℚ) *
      (ctxRank1.item : ℚ) / (ctxRank1.dataset_len : ℚ) * 100,
    ctxRank1.reduceSum ((stZero.running_loss + 1) / ((stZero.log_steps + 1 : ℕ) : ℚ)) /
      (ctxRank1.world_size : ℚ),
    ((stZero.log_steps + 1 : ℕ) : ℚ) / (ctxRank1.now - stZero.start_time), ?_⟩
  rw [processBatch_val ℕ ctxRank1 stZero 1 rfl]
  refine List.mem_append.mpr (Or.inl (List.mem_append.mpr (Or.inr ?_)))
  rw [hlb]
  exact List.mem_cons_of_mem _ (List.mem_cons_self _ _)

/-- C7 (amended): at every metrics report every rank performs the collective
reduction, and every rank also executes the consolidated metrics log call
(epoch percent, padded step, averaged loss, steps/sec) through its own
logger; what distinguishes rank 0 is only that `create_logger` (src lines
24-27) attached the experiment log-file sink to rank 0's logger alone. -/
theorem metrics_log_all_ranks (SD : Type) (ctx : StepCtx SD) (st : TrainState) (q : ℚ)
    (hq : ctx.lossv = LossVal.val q)
    (hlog : (st.train_steps + 1) % ctx.args.log_every = 0) :
    (∃ a, Event.all_reduce a ∈ (processBatch SD ctx st).2) ∧
    (∃ pc av sp, Event.log_line ctx.rank pc (st.train_steps + 1) av sp ∈
      (processBatch SD ctx st).2) ∧
    (∀ dir, (∃ pth, Sink.file pth ∈ create_logger ctx.rank dir) ↔ ctx.rank = 0) := by
  have hlb := logBranch_pos SD ctx
    ⟨st.train_steps + 1, st.log_steps + 1, st.running_loss + q, st.start_time⟩ hlog
  refine ⟨?_, ?_, ?_⟩
  · refine ⟨(st.running_loss + q) / ((st.log_steps + 1 : ℕ) : ℚ), ?_⟩
    rw [processBatch_val SD ctx st q hq]
    refine List.mem_append.mpr (Or.inl (List.mem_append.mpr (Or.inr ?_)))
    rw [hlb]
    exact List.mem_cons_self _ _
  · refine ⟨((ctx.args.global_batch_size / ctx.world_size : ℕ) : ℚ) * (ctx.item : ℚ) /
        (ctx.dataset_len : ℚ) * 100,
      ctx.reduceSum ((st.running_loss + q) / ((st.log_steps + 1 : ℕ) : ℚ)) /
        (ctx.world_size : ℚ),
      ((st.log_steps + 1 : ℕ) : ℚ) / (ctx.now - st.start_time), ?_⟩
    rw [processBatch_val SD ctx st q hq]
    refine List.mem_append.mpr (Or.inl (List.mem_append.mpr (Or.inr ?_)))
    rw [hlb]
    exact List.mem_cons_of_mem _ (List.mem_cons_self _ _)
  · intro dir
    unfold create_logger
    by_cases h0 : ctx.rank = 0
    · rw [if_pos h0]
      simp [h0]
    · rw [if_neg h0]
      simp [h0]

/-- Witness for C7 (amended) at a rank-1 process with `log_every = 1`. -/
theorem metrics_log_all_ranks_witness :
    ctxRank1.lossv = LossVal.val 1 ∧
    (stZero.train_steps + 1) % ctxRank1.args.log_every = 0 ∧
    ((∃ a, Event.all_reduce a ∈ (processBatch ℕ ctxRank1 stZero).2) ∧
     (∃ pc av sp, Event.log_line ctxRank1.rank pc (stZero.train_steps + 1) av sp ∈
       (processBatch ℕ ctxRank1 stZero).2) ∧
     (∀ dir, (∃ pth, Sink.file pth ∈ create_logger ctxRank1.rank dir) ↔
       ctxRank1.rank = 0)) :=
  ⟨rfl, by decide, metrics_log_all_ranks ℕ ctxRank1 stZero 1 rfl (by decide)⟩

/-- C9: every invocation through the command-line entry point — any rank, any
wandb flag value — aborts with an `AttributeError` on `ct_image_folder_train`
while constructing the training dataset (src line 89), because the argument
parser defines none of the three `*_image_folder_train` attributes; the
training loop of src line 104 is never reached. -/
theorem main_never_reaches_training_loop (rank : ℕ) (wandbOn : Bool) :
    mainUntilLoop rank wandbOn = Except.error ("ct_image_folder_train") ∧
    ∀ s, mainUntilLoop rank wandbOn ≠ Except.ok s := by
  have h : mainUntilLoop rank wandbOn = Except.error ("ct_image_folder_train") := by
    by_cases h0 : rank = 0
    · subst h0
      cases wandbOn <;> rfl
    · unfold mainUntilLoop mainAttrReads
      rw [if_neg h0]
      rfl
  refine ⟨h, fun s hs => ?_⟩
  rw [h] at hs
  cases hs
